import Mathlib

/-!
# Offload capability codec, negotiation and bypass control plane (util-dpdk.h)

Shallow embedding of the declarations of `src/util-dpdk.h` together with the
operations the design document describes over them.  Machine integers are
natural numbers; a value stored in a `uint16_t` field is reduced modulo `2^16`,
one returned as `uint8_t` modulo `2^8`.
-/

namespace UtilDpdk

/-! ## Constants of the header -/

/-- The `#define MAX_CNT_OFFLOADS 16` of the header. -/
def MAX_CNT_OFFLOADS : Nat := 16

/-- The `#define MAX_CNT_MATCHED_RULES 32` of the header. -/
def MAX_CNT_MATCHED_RULES : Nat := 32

/-- Width in bits of a `uint16_t` field. -/
def UINT16_BITS : Nat := 16

/-- Value kept by a `uint16_t` field when the integer `x` is assigned to it. -/
def toU16 (x : Nat) : Nat := x % 2 ^ UINT16_BITS

/-- Value kept by a `uint8_t` when the integer `x` is converted to it. -/
def toU8 (x : Nat) : Nat := x % 2 ^ 8

/-! ## Capability codec -/

/-- The enumeration `enum ofldsIdxsSur { MATCH_RULES };` of the header: its only
enumerator, listed in declaration order. -/
inductive ofldsIdxsSur where
  | MATCH_RULES
  deriving DecidableEq, Repr

/-- Integer value of an enumerator of `ofldsIdxsSur`: enumerators without an
initialiser count up from zero in declaration order. -/
def ofldsIdxsSur.val : ofldsIdxsSur → Nat
  | .MATCH_RULES => 0

/-- The enumerator `MATCH_RULES` used as a shift count. -/
def MATCH_RULES : Nat := ofldsIdxsSur.MATCH_RULES.val

/-- The layer identifiers `IPV4_ID`, `IPV6_ID`, `TCP_ID`, `UDP_ID` that the encode
macros shift by.  The header uses them without defining them, so they are
parameters of the embedding. -/
structure LayerIds where
  IPV4_ID : Nat
  IPV6_ID : Nat
  TCP_ID : Nat
  UDP_ID : Nat
  deriving DecidableEq, Repr

/-- The four layer identifiers are pairwise different. -/
def LayerIds.Distinct (ids : LayerIds) : Prop :=
  ids.IPV4_ID ≠ ids.IPV6_ID ∧ ids.IPV4_ID ≠ ids.TCP_ID ∧ ids.IPV4_ID ≠ ids.UDP_ID ∧
  ids.IPV6_ID ≠ ids.TCP_ID ∧ ids.IPV6_ID ≠ ids.UDP_ID ∧ ids.TCP_ID ≠ ids.UDP_ID

instance (ids : LayerIds) : Decidable ids.Distinct := by
  unfold LayerIds.Distinct; infer_instance

/-- Every layer identifier is a bit position of the 16-bit offload field. -/
def LayerIds.InRange (ids : LayerIds) : Prop :=
  ids.IPV4_ID < MAX_CNT_OFFLOADS ∧ ids.IPV6_ID < MAX_CNT_OFFLOADS ∧
  ids.TCP_ID < MAX_CNT_OFFLOADS ∧ ids.UDP_ID < MAX_CNT_OFFLOADS

instance (ids : LayerIds) : Decidable ids.InRange := by
  unfold LayerIds.InRange; infer_instance

/-- Modelled from the spec: the values of the layer identifiers, which the header
leaves undefined, taken in the enumeration order IPv4, IPv6, TCP, UDP of the
design document (section 4.1). -/
def specOrderIds : LayerIds := { IPV4_ID := 0, IPV6_ID := 1, TCP_ID := 2, UDP_ID := 3 }

/-- The macro `#define IPV4_OFFLOAD(val) ((val) << IPV4_ID)`.  The shift is taken in
the natural numbers; it is the shift of the C `int` wherever `IPV4_ID` is a bit
position of the 16-bit field (`LayerIds.InRange`) and the result fits in 16
bits. -/
def IPV4_OFFLOAD (ids : LayerIds) (val : Nat) : Nat := val <<< ids.IPV4_ID

/-- The macro `#define IPV6_OFFLOAD(val) ((val) << IPV6_ID)`.  The shift is taken in
the natural numbers; it is the shift of the C `int` wherever `IPV6_ID` is a bit
position of the 16-bit field (`LayerIds.InRange`) and the result fits in 16
bits. -/
def IPV6_OFFLOAD (ids : LayerIds) (val : Nat) : Nat := val <<< ids.IPV6_ID

/-- The macro `#define TCP_OFFLOAD(val) ((val) << TCP_ID)`.  The shift is taken in
the natural numbers; it is the shift of the C `int` wherever `TCP_ID` is a bit
position of the 16-bit field (`LayerIds.InRange`) and the result fits in 16
bits. -/
def TCP_OFFLOAD (ids : LayerIds) (val : Nat) : Nat := val <<< ids.TCP_ID

/-- The macro `#define UDP_OFFLOAD(val) ((val) << UDP_ID)`.  The shift is taken in
the natural numbers; it is the shift of the C `int` wherever `UDP_ID` is a bit
position of the 16-bit field (`LayerIds.InRange`) and the result fits in 16
bits. -/
def UDP_OFFLOAD (ids : LayerIds) (val : Nat) : Nat := val <<< ids.UDP_ID

/-- The macro `#define MATCH_RULES_OFFLOAD(val) ((val) << MATCH_RULES)`. -/
def MATCH_RULES_OFFLOAD (val : Nat) : Nat := val <<< MATCH_RULES

/-- Modelled from the spec: the offload negotiator, which the header does not
contain.  The negotiated set is the bitwise AND of the requested and the
supported 16-bit offload fields (section 4.2), stored again in a `uint16_t`
field such as `oflds_final_IDS`. -/
def negotiate (requested supported : Nat) : Nat := toU16 (requested &&& supported)

/-! ## Bypass messages and the flow-bypass state machine -/

/-- The enumeration `enum PFMessageType` of the header, with its enumerators in
declaration order; the last one, `PF_MESSAGE_CNT`, is the count sentinel. -/
inductive PFMessageType where
  | PF_MESSAGE_BYPASS_ADD
  | PF_MESSAGE_BYPASS_SOFT_DELETE
  | PF_MESSAGE_BYPASS_HARD_DELETE
  | PF_MESSAGE_BYPASS_UPDATE
  | PF_MESSAGE_BYPASS_FORCE_EVICT
  | PF_MESSAGE_BYPASS_EVICT
  | PF_MESSAGE_BYPASS_FLOW_NOT_FOUND
  | PF_MESSAGE_CNT
  deriving DecidableEq, Repr

/-- Integer value of an enumerator of `PFMessageType`: enumerators without an
initialiser count up from zero in declaration order. -/
def PFMessageType.val : PFMessageType → Nat
  | .PF_MESSAGE_BYPASS_ADD => 0
  | .PF_MESSAGE_BYPASS_SOFT_DELETE => 1
  | .PF_MESSAGE_BYPASS_HARD_DELETE => 2
  | .PF_MESSAGE_BYPASS_UPDATE => 3
  | .PF_MESSAGE_BYPASS_FORCE_EVICT => 4
  | .PF_MESSAGE_BYPASS_EVICT => 5
  | .PF_MESSAGE_BYPASS_FLOW_NOT_FOUND => 6
  | .PF_MESSAGE_CNT => 7

/-- The enumerator `PF_MESSAGE_CNT` as an integer. -/
def PF_MESSAGE_CNT : Nat := PFMessageType.PF_MESSAGE_CNT.val

/-- An enumerator of `PFMessageType` that names a message kind, that is, any
enumerator but the count sentinel. -/
def PFMessageType.IsKind (t : PFMessageType) : Prop := t ≠ PFMessageType.PF_MESSAGE_CNT

instance (t : PFMessageType) : Decidable t.IsKind := by
  unfold PFMessageType.IsKind; infer_instance

/-- Modelled from the spec: the per-flow bypass states of section 4.5, which the
header does not declare. -/
inductive FlowState where
  | Untracked
  | Pending
  | Bypassed
  | SoftDeleted
  | HardDeleted
  | Evicted
  deriving DecidableEq, Repr

/-- Modelled from the spec: the transition function of the flow-bypass state
machine (section 4.5), which the header does not contain.  `ADD` takes
Untracked and Pending to Pending and reverses a soft delete; `UPDATE` changes
nothing; `SOFT_DELETE` takes Bypassed to SoftDeleted; `HARD_DELETE` takes any
state to Untracked; `FORCE_EVICT` and `EVICT` take Bypassed and SoftDeleted to
Evicted; `FLOW_NOT_FOUND` makes the flow Untracked.  A message for which the
section names no transition from the current state leaves the state as it is. -/
def flowStep : FlowState → PFMessageType → FlowState
  | .Untracked, .PF_MESSAGE_BYPASS_ADD => .Pending
  | .Pending, .PF_MESSAGE_BYPASS_ADD => .Pending
  | .SoftDeleted, .PF_MESSAGE_BYPASS_ADD => .Bypassed
  | s, .PF_MESSAGE_BYPASS_ADD => s
  | s, .PF_MESSAGE_BYPASS_UPDATE => s
  | .Bypassed, .PF_MESSAGE_BYPASS_SOFT_DELETE => .SoftDeleted
  | s, .PF_MESSAGE_BYPASS_SOFT_DELETE => s
  | _, .PF_MESSAGE_BYPASS_HARD_DELETE => .Untracked
  | .Bypassed, .PF_MESSAGE_BYPASS_FORCE_EVICT => .Evicted
  | .SoftDeleted, .PF_MESSAGE_BYPASS_FORCE_EVICT => .Evicted
  | s, .PF_MESSAGE_BYPASS_FORCE_EVICT => s
  | .Bypassed, .PF_MESSAGE_BYPASS_EVICT => .Evicted
  | .SoftDeleted, .PF_MESSAGE_BYPASS_EVICT => .Evicted
  | s, .PF_MESSAGE_BYPASS_EVICT => s
  | _, .PF_MESSAGE_BYPASS_FLOW_NOT_FOUND => .Untracked
  | s, .PF_MESSAGE_CNT => s

/-- Modelled from the spec: the flow key of the glossary, the identifying tuple
of a network flow (addresses, ports, protocol). -/
structure FlowKey where
  src_addr : Nat
  dst_addr : Nat
  src_port : Nat
  dst_port : Nat
  proto : Nat
  deriving DecidableEq, Repr

/-- Modelled from the spec: the engine's record of the bypass state of every flow;
a flow it has never heard of is Untracked. -/
def FlowTable : Type := FlowKey → FlowState

/-- The table in which every flow is Untracked. -/
def FlowTable.empty : FlowTable := fun _ => FlowState.Untracked

/-- Modelled from the spec: applying a bypass message that carries the flow key
`key` moves that flow by `flowStep` and leaves every other flow alone. -/
def FlowTable.apply (t : FlowTable) (key : FlowKey) (msg : PFMessageType) : FlowTable :=
  fun k => if k = key then flowStep (t k) msg else t k

/-! ## Interface configuration and queue claiming -/

/-- The integer fields of `struct DPDKIfaceConfig_` that queue assignment and
offload negotiation use. -/
structure DPDKIfaceConfig where
  port_id : Nat
  socket_id : Nat
  threads : Nat
  oflds_suri_requested : Nat
  cnt_offlds_suri_support : Nat
  oflds_suri_support : Nat
  nb_rx_queues : Nat
  nb_tx_queues : Nat
  queue_id : Nat
  deriving DecidableEq, Repr

/-- Modelled from the spec: the error `claimQueue` reports when every queue is
already claimed (section 4.3). -/
inductive ClaimError where
  | QueuesExhausted
  deriving DecidableEq, Repr

/-- Modelled from the spec: `claimQueue` of section 4.3, which the header does
not contain.  It fetches and increments the `queue_id` counter of the
configuration, bounded by the configured queue count `nb_rx_queues`; when all
queues are claimed it returns the exhaustion error and leaves the counter. -/
def claimQueue (cfg : DPDKIfaceConfig) : Except ClaimError Nat × DPDKIfaceConfig :=
  if cfg.queue_id < cfg.nb_rx_queues then
    (.ok cfg.queue_id, { cfg with queue_id := toU16 (cfg.queue_id + 1) })
  else
    (.error .QueuesExhausted, cfg)

/-- A configuration with three receive queues, none of them claimed yet. -/
def threeQueueConfig : DPDKIfaceConfig :=
  { port_id := 0, socket_id := 0, threads := 5, oflds_suri_requested := 0,
    cnt_offlds_suri_support := 0, oflds_suri_support := 0,
    nb_rx_queues := 3, nb_tx_queues := 3, queue_id := 0 }

/-- A sequence of `m` calls of `claimQueue` on one configuration: the results in
call order and the configuration left behind. -/
def claimQueueSeq : Nat → DPDKIfaceConfig → List (Except ClaimError Nat) × DPDKIfaceConfig
  | 0, cfg => ([], cfg)
  | m + 1, cfg =>
    let r := claimQueue cfg
    let rest := claimQueueSeq m r.2
    (r.1 :: rest.1, rest.2)

/-! ## Fixed-size arrays -/

/-- Declared length of the array `uint32_t rules[32]` in `struct MetadataRules`. -/
def MetadataRules.rulesLen : Nat := 32

/-- The record `struct MetadataRules`: a rule count and the rule-id array. -/
structure MetadataRules where
  cnt : Nat
  rules : Fin MetadataRules.rulesLen → Nat

/-- Declared length of `idxes_offlds_suri_support[MAX_CNT_OFFLOADS]` and of the
array `(*idxes_offlds_suri_requested)[MAX_CNT_OFFLOADS]` points to. -/
def DPDKIfaceConfig.idxesOffldsLen : Nat := MAX_CNT_OFFLOADS

/-! ## Diagnostic accessors -/

/-- Loop of `CountDigits`: divide by ten until nothing is left, counting the
steps in a `uint8_t`. -/
def CountDigits.loop (n digits_cnt : Nat) : Nat :=
  if h : n = 0 then digits_cnt
  else CountDigits.loop (n / 10) (toU8 (digits_cnt + 1))
termination_by n
decreasing_by omega

/-- Modelled from the spec: `uint8_t CountDigits(uint32_t n)`, declared in the
header and defined elsewhere; the digit count of section 6.  Zero is written
with one digit; any other number is divided by ten until nothing is left. -/
def CountDigits (n : Nat) : Nat :=
  if n = 0 then 1 else toU8 (CountDigits.loop n 0)

/-- Modelled from the spec: `uint32_t ArrayMaxValue(const uint32_t *arr, uint16_t
arr_len)`, declared in the header and defined elsewhere; the maximum value of
section 6.  The running maximum starts at zero and is raised by each of the
first `arr_len` elements in index order. -/
def ArrayMaxValue (arr : List Nat) (arr_len : Nat) : Nat :=
  (List.range arr_len).foldl (fun m i => max (arr.getD i 0) m) 0

/-! ## Theorems: message tags, state machine, array bounds -/

/-- C5: `enum PFMessageType` gives the seven bypass message kinds ADD, SOFT_DELETE,
HARD_DELETE, UPDATE, FORCE_EVICT, EVICT, FLOW_NOT_FOUND the tags 0 to 6 in that
order, the tags are pairwise distinct, `PF_MESSAGE_CNT` is 7, the kinds are
exactly the enumerators with a tag below `PF_MESSAGE_CNT`, and every tag below
`PF_MESSAGE_CNT` denotes exactly one kind. -/
theorem pf_message_type_tags :
    PFMessageType.PF_MESSAGE_BYPASS_ADD.val = 0 ∧
    PFMessageType.PF_MESSAGE_BYPASS_SOFT_DELETE.val = 1 ∧
    PFMessageType.PF_MESSAGE_BYPASS_HARD_DELETE.val = 2 ∧
    PFMessageType.PF_MESSAGE_BYPASS_UPDATE.val = 3 ∧
    PFMessageType.PF_MESSAGE_BYPASS_FORCE_EVICT.val = 4 ∧
    PFMessageType.PF_MESSAGE_BYPASS_EVICT.val = 5 ∧
    PFMessageType.PF_MESSAGE_BYPASS_FLOW_NOT_FOUND.val = 6 ∧
    PF_MESSAGE_CNT = 7 ∧
    Function.Injective PFMessageType.val ∧
    (∀ k : PFMessageType, k.IsKind ↔ k.val < PF_MESSAGE_CNT) ∧
    (∀ tag : Fin PF_MESSAGE_CNT, ∃! k : PFMessageType, k.IsKind ∧ k.val = tag.val) := by
  refine ⟨rfl, rfl, rfl, rfl, rfl, rfl, rfl, rfl, ?_, ?_, ?_⟩
  · intro a b h
    cases a <;> cases b <;> first | rfl | (exact absurd h (by decide))
  · intro k
    cases k <;> decide
  · intro tag
    have hlt : tag.val < 7 := tag.isLt
    obtain ⟨t, ht⟩ := tag
    simp only
    have h7 : t < 7 := hlt
    interval_cases t
    · exact ⟨.PF_MESSAGE_BYPASS_ADD, ⟨by decide, rfl⟩,
        fun k hk => by cases k <;> first | rfl | (exact absurd hk.2 (by decide))⟩
    · exact ⟨.PF_MESSAGE_BYPASS_SOFT_DELETE, ⟨by decide, rfl⟩,
        fun k hk => by cases k <;> first | rfl | (exact absurd hk.2 (by decide))⟩
    · exact ⟨.PF_MESSAGE_BYPASS_HARD_DELETE, ⟨by decide, rfl⟩,
        fun k hk => by cases k <;> first | rfl | (exact absurd hk.2 (by decide))⟩
    · exact ⟨.PF_MESSAGE_BYPASS_UPDATE, ⟨by decide, rfl⟩,
        fun k hk => by cases k <;> first | rfl | (exact absurd hk.2 (by decide))⟩
    · exact ⟨.PF_MESSAGE_BYPASS_FORCE_EVICT, ⟨by decide, rfl⟩,
        fun k hk => by cases k <;> first | rfl | (exact absurd hk.2 (by decide))⟩
    · exact ⟨.PF_MESSAGE_BYPASS_EVICT, ⟨by decide, rfl⟩,
        fun k hk => by cases k <;> first | rfl | (exact absurd hk.2 (by decide))⟩
    · exact ⟨.PF_MESSAGE_BYPASS_FLOW_NOT_FOUND, ⟨by decide, rfl⟩,
        fun k hk => by cases k <;> first | rfl | (exact absurd hk.2 (by decide))⟩

/-- C6: a `HARD_DELETE` takes every flow state to Untracked and a second one
changes nothing more; on the flow table, a `HARD_DELETE` for a flow key leaves
that flow Untracked and repeating it for the same key gives the same table; a
`FORCE_EVICT` for a flow that is Untracked leaves state and table as they were. -/
theorem hard_delete_idempotent_force_evict_noop (key : FlowKey) :
    (∀ s : FlowState,
      flowStep s .PF_MESSAGE_BYPASS_HARD_DELETE = .Untracked ∧
      flowStep (flowStep s .PF_MESSAGE_BYPASS_HARD_DELETE) .PF_MESSAGE_BYPASS_HARD_DELETE
        = flowStep s .PF_MESSAGE_BYPASS_HARD_DELETE) ∧
    (∀ u : FlowTable,
      (u.apply key .PF_MESSAGE_BYPASS_HARD_DELETE) key = .Untracked ∧
      (u.apply key .PF_MESSAGE_BYPASS_HARD_DELETE).apply key .PF_MESSAGE_BYPASS_HARD_DELETE
        = u.apply key .PF_MESSAGE_BYPASS_HARD_DELETE) ∧
    flowStep .Untracked .PF_MESSAGE_BYPASS_FORCE_EVICT = .Untracked ∧
    (∀ u : FlowTable, u key = .Untracked →
      u.apply key .PF_MESSAGE_BYPASS_FORCE_EVICT = u) := by
  refine ⟨?_, ?_, rfl, ?_⟩
  · intro s
    cases s <;> exact ⟨rfl, rfl⟩
  · intro u
    refine ⟨?_, ?_⟩
    · simp [FlowTable.apply, flowStep]
    · funext k
      by_cases hk : k = key
      · simp [FlowTable.apply, hk, flowStep]
      · simp [FlowTable.apply, hk]
  · intro u hu
    funext k
    by_cases hk : k = key
    · subst hk
      simp [FlowTable.apply, hu, flowStep]
    · simp [FlowTable.apply, hk]

/-- Witness of C6 on the table in which every flow is Untracked. -/
theorem hard_delete_idempotent_force_evict_noop_witness :
    FlowTable.empty ⟨1, 2, 3, 4, 6⟩ = FlowState.Untracked ∧
    FlowTable.empty.apply ⟨1, 2, 3, 4, 6⟩ .PF_MESSAGE_BYPASS_FORCE_EVICT = FlowTable.empty :=
  ⟨rfl, (hard_delete_idempotent_force_evict_noop ⟨1, 2, 3, 4, 6⟩).2.2.2 FlowTable.empty rfl⟩

/-- C8: the rule array of `MetadataRules` has `MAX_CNT_MATCHED_RULES` = 32 slots,
so with a rule count `cnt` of at most `MAX_CNT_MATCHED_RULES` every index below
`cnt` lies inside the array; the offload index arrays have `MAX_CNT_OFFLOADS` = 16
slots, as many as a `uint16_t` offload field has bits. -/
theorem fixed_array_capacities (m : MetadataRules) (i : Nat)
    (hcnt : m.cnt ≤ MAX_CNT_MATCHED_RULES) (hi : i < m.cnt) :
    MetadataRules.rulesLen = MAX_CNT_MATCHED_RULES ∧
    MAX_CNT_MATCHED_RULES = 32 ∧
    i < MetadataRules.rulesLen ∧
    (∃ slot : Fin MetadataRules.rulesLen, slot.val = i) ∧
    DPDKIfaceConfig.idxesOffldsLen = MAX_CNT_OFFLOADS ∧
    MAX_CNT_OFFLOADS = 16 ∧
    DPDKIfaceConfig.idxesOffldsLen = UINT16_BITS := by
  have h : i < MetadataRules.rulesLen := by
    have : MetadataRules.rulesLen = MAX_CNT_MATCHED_RULES := rfl
    omega
  exact ⟨rfl, rfl, h, ⟨⟨i, h⟩, rfl⟩, rfl, rfl, rfl⟩

/-- Witness of C8: a full rule list, read at its last index. -/
theorem fixed_array_capacities_witness :
    (32 : Nat) ≤ MAX_CNT_MATCHED_RULES ∧ (31 : Nat) < 32 ∧ 31 < MetadataRules.rulesLen :=
  ⟨by decide, by decide,
    (fixed_array_capacities ⟨32, fun _ => 0⟩ 31 (by decide) (by decide)).2.2.1⟩

/-! ## Theorems: capability codec and negotiation -/

/-- Bit `j` of a single-bit flag `v ≤ 1` shifted to position `a`. -/
theorem testBit_flag_shiftLeft (v a j : Nat) (hv : v ≤ 1) :
    (v <<< a).testBit j = (decide (v = 1) && decide (j = a)) := by
  rw [Nat.testBit_shiftLeft]
  interval_cases v
  · simp
  · by_cases h : j = a
    · subst h; simp
    · by_cases h2 : j ≥ a
      · have hne : j - a ≠ 0 := by omega
        have hb : Nat.testBit 1 (j - a) = false := by
          cases hbit : Nat.testBit 1 (j - a) with
          | false => rfl
          | true => exact absurd (Nat.testBit_one_eq_true_iff_self_eq_zero.mp hbit) hne
        simp [h, h2, hb]
      · simp [h, h2]

/-- A single-bit flag shifted to a position below `MAX_CNT_OFFLOADS` fits in the
16-bit offload field, so the shift overflows no C integer type. -/
theorem flag_shift_lt (v a : Nat) (hv : v ≤ 1) (ha : a < MAX_CNT_OFFLOADS) :
    v <<< a < 2 ^ 16 := by
  unfold MAX_CNT_OFFLOADS at ha
  rw [Nat.shiftLeft_eq]
  have h1 : 2 ^ a < 2 ^ 16 := Nat.pow_lt_pow_right (by decide) ha
  have h2 : v * 2 ^ a ≤ 1 * 2 ^ a := Nat.mul_le_mul_right _ hv
  omega

/-- Two single-bit flags shifted to different positions share no bit. -/
theorem flag_shift_and_eq_zero (v w a b : Nat) (hv : v ≤ 1) (hw : w ≤ 1) (hab : a ≠ b) :
    (v <<< a) &&& (w <<< b) = 0 := by
  apply Nat.eq_of_testBit_eq
  intro j
  rw [Nat.testBit_and, testBit_flag_shiftLeft v a j hv, testBit_flag_shiftLeft w b j hw]
  by_cases h1 : j = a
  · have : j ≠ b := by omega
    simp [this]
  · simp [h1]

/-- A value that fits in 16 bits is stored unchanged and comes back from the
right shift that undoes a left shift. -/
theorem shift_store_unshift (val id : Nat) (hfit : val <<< id < 2 ^ 16) :
    toU16 (val <<< id) >>> id = val := by
  unfold toU16 UINT16_BITS
  rw [Nat.mod_eq_of_lt hfit, Nat.shiftLeft_eq, Nat.shiftRight_eq_div_pow]
  exact Nat.mul_div_cancel _ (Nat.two_pow_pos id)

/-- The enabled flag at a position below 16 is stored as the power of two of the
position. -/
theorem store_one_shift (id : Nat) (hid : id < MAX_CNT_OFFLOADS) :
    toU16 (1 <<< id) = 2 ^ id ∧ toU16 (1 <<< id) ≠ 0 := by
  unfold toU16 UINT16_BITS
  unfold MAX_CNT_OFFLOADS at hid
  have h : 2 ^ id < 2 ^ 16 := Nat.pow_lt_pow_right (by decide) hid
  rw [Nat.shiftLeft_eq, Nat.one_mul, Nat.mod_eq_of_lt h]
  exact ⟨rfl, Nat.pos_iff_ne_zero.mp (Nat.two_pow_pos id)⟩

/-- Any two different shift positions admit flag values whose encodings meet:
the lower layer's flag value `2 ^ (b - a)` lands on the bit of the upper one. -/
theorem shift_overlap_of_lt (a b : Nat) (hab : a < b) :
    ((2 ^ (b - a)) <<< a) &&& (1 <<< b) = 2 ^ b := by
  have h : (2 ^ (b - a)) <<< a = 2 ^ b := by
    rw [Nat.shiftLeft_eq, ← Nat.pow_add]
    congr 1
    omega
  rw [h, Nat.shiftLeft_eq, Nat.one_mul, Nat.and_self]

/-- C1: the negotiated offload field is the bitwise intersection of the requested
and the supported field: each of its bits is set exactly when it is one of the
16 bits of the field and is set in both inputs, so every bit set in it is set in
the requested and in the supported field; negotiation is commutative; and
requesting IPv4 and TCP against a backend that supports IPv4 but not TCP
negotiates IPv4 without TCP. -/
theorem negotiate_is_intersection (R S : Nat) :
    (∀ i : Nat, (negotiate R S).testBit i
        = (decide (i < UINT16_BITS) && (R.testBit i && S.testBit i))) ∧
    (∀ i : Nat, (negotiate R S).testBit i = true → R.testBit i = true ∧ S.testBit i = true) ∧
    negotiate R S = negotiate S R ∧
    negotiate R S < 2 ^ UINT16_BITS ∧
    (∀ ids : LayerIds,
      negotiate (IPV4_OFFLOAD ids 1 ||| TCP_OFFLOAD ids 1)
          (IPV4_OFFLOAD ids 1 ||| TCP_OFFLOAD ids 0)
        = toU16 (IPV4_OFFLOAD ids 1 ||| TCP_OFFLOAD ids 0)) ∧
    negotiate (IPV4_OFFLOAD specOrderIds 1 ||| TCP_OFFLOAD specOrderIds 1)
        (IPV4_OFFLOAD specOrderIds 1 ||| TCP_OFFLOAD specOrderIds 0)
      = (IPV4_OFFLOAD specOrderIds 1 ||| TCP_OFFLOAD specOrderIds 0) ∧
    (negotiate (IPV4_OFFLOAD specOrderIds 1 ||| TCP_OFFLOAD specOrderIds 1)
        (IPV4_OFFLOAD specOrderIds 1 ||| TCP_OFFLOAD specOrderIds 0)).testBit
      specOrderIds.IPV4_ID = true ∧
    (negotiate (IPV4_OFFLOAD specOrderIds 1 ||| TCP_OFFLOAD specOrderIds 1)
        (IPV4_OFFLOAD specOrderIds 1 ||| TCP_OFFLOAD specOrderIds 0)).testBit
      specOrderIds.TCP_ID = false := by
  have hbit : ∀ i : Nat, (negotiate R S).testBit i
      = (decide (i < UINT16_BITS) && (R.testBit i && S.testBit i)) := by
    intro i
    unfold negotiate toU16
    rw [Nat.testBit_mod_two_pow, Nat.testBit_and]
  refine ⟨hbit, ?_, ?_, ?_, ?_, by decide, by decide, by decide⟩
  · intro i hi
    rw [hbit i] at hi
    simp only [Bool.and_eq_true] at hi
    exact hi.2
  · unfold negotiate
    rw [Nat.land_comm]
  · unfold negotiate toU16
    exact Nat.mod_lt _ (Nat.two_pow_pos _)
  · intro ids
    unfold negotiate
    congr 1
    apply Nat.eq_of_testBit_eq
    intro j
    simp only [Nat.testBit_and, Nat.testBit_or]
    cases (IPV4_OFFLOAD ids 1).testBit j <;> cases (TCP_OFFLOAD ids 1).testBit j <;>
      simp [TCP_OFFLOAD]

/-- C2, as the code has it: for pairwise different layer identifiers below
`MAX_CNT_OFFLOADS` and flags that are 0 or 1, every encoding fits in the 16-bit
offload field and the encodings of two different protocol layers among IPv4,
IPv6, TCP and UDP have no set bit in common. -/
theorem offload_layers_disjoint (ids : LayerIds) (hd : ids.Distinct) (hr : ids.InRange)
    (v4 v6 vt vu : Nat) (h4 : v4 ≤ 1) (h6 : v6 ≤ 1) (ht : vt ≤ 1) (hu : vu ≤ 1) :
    (IPV4_OFFLOAD ids v4 < 2 ^ 16 ∧ IPV6_OFFLOAD ids v6 < 2 ^ 16 ∧
     TCP_OFFLOAD ids vt < 2 ^ 16 ∧ UDP_OFFLOAD ids vu < 2 ^ 16) ∧
    IPV4_OFFLOAD ids v4 &&& IPV6_OFFLOAD ids v6 = 0 ∧
    IPV4_OFFLOAD ids v4 &&& TCP_OFFLOAD ids vt = 0 ∧
    IPV4_OFFLOAD ids v4 &&& UDP_OFFLOAD ids vu = 0 ∧
    IPV6_OFFLOAD ids v6 &&& TCP_OFFLOAD ids vt = 0 ∧
    IPV6_OFFLOAD ids v6 &&& UDP_OFFLOAD ids vu = 0 ∧
    TCP_OFFLOAD ids vt &&& UDP_OFFLOAD ids vu = 0 := by
  obtain ⟨h46, h4t, h4u, h6t, h6u, htu⟩ := hd
  obtain ⟨r4, r6, rt, ru⟩ := hr
  unfold IPV4_OFFLOAD IPV6_OFFLOAD TCP_OFFLOAD UDP_OFFLOAD
  exact ⟨⟨flag_shift_lt v4 _ h4 r4, flag_shift_lt v6 _ h6 r6, flag_shift_lt vt _ ht rt,
      flag_shift_lt vu _ hu ru⟩,
    flag_shift_and_eq_zero _ _ _ _ h4 h6 h46, flag_shift_and_eq_zero _ _ _ _ h4 ht h4t,
    flag_shift_and_eq_zero _ _ _ _ h4 hu h4u, flag_shift_and_eq_zero _ _ _ _ h6 ht h6t,
    flag_shift_and_eq_zero _ _ _ _ h6 hu h6u, flag_shift_and_eq_zero _ _ _ _ ht hu htu⟩

/-- Witness of C2 as amended: all four layers enabled, identifiers in the
enumeration order of the design document. -/
theorem offload_layers_disjoint_witness :
    specOrderIds.Distinct ∧ specOrderIds.InRange ∧
    IPV4_OFFLOAD specOrderIds 1 &&& IPV6_OFFLOAD specOrderIds 1 = 0 ∧
    TCP_OFFLOAD specOrderIds 1 &&& UDP_OFFLOAD specOrderIds 1 = 0 :=
  have h := offload_layers_disjoint specOrderIds (by decide) (by decide) 1 1 1 1
    (by decide) (by decide) (by decide) (by decide)
  ⟨by decide, by decide, h.2.1, h.2.2.2.2.2.2⟩

/-- Counterexample to C2 as stated: with distinct layer identifiers inside the
16-bit field, the IPv4 flag value 2 and the IPv6 flag value 1 are encoded onto
the same bit, and the like for every other pair of layers. -/
theorem offload_layers_overlap_multibit :
    specOrderIds.Distinct ∧
    IPV4_OFFLOAD specOrderIds 2 &&& IPV6_OFFLOAD specOrderIds 1 = 2 ∧
    IPV4_OFFLOAD specOrderIds 2 &&& IPV6_OFFLOAD specOrderIds 1 ≠ 0 ∧
    IPV6_OFFLOAD specOrderIds 2 &&& TCP_OFFLOAD specOrderIds 1 ≠ 0 ∧
    TCP_OFFLOAD specOrderIds 2 &&& UDP_OFFLOAD specOrderIds 1 ≠ 0 ∧
    ¬ (∀ ids : LayerIds, ids.Distinct → ∀ v w : Nat,
        IPV4_OFFLOAD ids v &&& IPV6_OFFLOAD ids w = 0) ∧
    specOrderIds.InRange ∧
    ¬ (∀ ids : LayerIds, ids.Distinct → ids.InRange → ∀ v w : Nat,
        IPV4_OFFLOAD ids v &&& IPV6_OFFLOAD ids w = 0) := by
  refine ⟨by decide, by decide, by decide, by decide, by decide, ?_, by decide, ?_⟩
  · intro h
    exact absurd (h specOrderIds (by decide) 2 1) (by decide)
  · intro h
    exact absurd (h specOrderIds (by decide) (by decide) 2 1) (by decide)

/-- C3: for layer identifiers below `MAX_CNT_OFFLOADS` and flag values whose
encoding fits in 16 bits, storing the encoding made by any of the five encode
macros in a `uint16_t` offload field and shifting the field right by the macro's
position gives the flag value back; the enabled flag 1 is stored by each macro
as the non-zero single-bit value two to the power of its position. -/
theorem decode_undoes_encode (ids : LayerIds) (hr : ids.InRange)
    (v4 v6 vt vu vm : Nat)
    (h4 : IPV4_OFFLOAD ids v4 < 2 ^ 16) (h6 : IPV6_OFFLOAD ids v6 < 2 ^ 16)
    (ht : TCP_OFFLOAD ids vt < 2 ^ 16) (hu : UDP_OFFLOAD ids vu < 2 ^ 16)
    (hm : MATCH_RULES_OFFLOAD vm < 2 ^ 16) :
    (toU16 (IPV4_OFFLOAD ids v4) >>> ids.IPV4_ID = v4 ∧
     toU16 (IPV6_OFFLOAD ids v6) >>> ids.IPV6_ID = v6 ∧
     toU16 (TCP_OFFLOAD ids vt) >>> ids.TCP_ID = vt ∧
     toU16 (UDP_OFFLOAD ids vu) >>> ids.UDP_ID = vu ∧
     toU16 (MATCH_RULES_OFFLOAD vm) >>> MATCH_RULES = vm) ∧
    (toU16 (IPV4_OFFLOAD ids 1) = 2 ^ ids.IPV4_ID ∧ toU16 (IPV4_OFFLOAD ids 1) ≠ 0) ∧
    (toU16 (IPV6_OFFLOAD ids 1) = 2 ^ ids.IPV6_ID ∧ toU16 (IPV6_OFFLOAD ids 1) ≠ 0) ∧
    (toU16 (TCP_OFFLOAD ids 1) = 2 ^ ids.TCP_ID ∧ toU16 (TCP_OFFLOAD ids 1) ≠ 0) ∧
    (toU16 (UDP_OFFLOAD ids 1) = 2 ^ ids.UDP_ID ∧ toU16 (UDP_OFFLOAD ids 1) ≠ 0) ∧
    (toU16 (MATCH_RULES_OFFLOAD 1) = 2 ^ MATCH_RULES ∧ toU16 (MATCH_RULES_OFFLOAD 1) ≠ 0) := by
  obtain ⟨r4, r6, rt, ru⟩ := hr
  unfold IPV4_OFFLOAD at h4
  unfold IPV6_OFFLOAD at h6
  unfold TCP_OFFLOAD at ht
  unfold UDP_OFFLOAD at hu
  unfold MATCH_RULES_OFFLOAD at hm
  unfold IPV4_OFFLOAD IPV6_OFFLOAD TCP_OFFLOAD UDP_OFFLOAD MATCH_RULES_OFFLOAD
  exact ⟨⟨shift_store_unshift _ _ h4, shift_store_unshift _ _ h6, shift_store_unshift _ _ ht,
      shift_store_unshift _ _ hu, shift_store_unshift _ _ hm⟩,
    store_one_shift _ r4, store_one_shift _ r6, store_one_shift _ rt, store_one_shift _ ru,
    store_one_shift _ (by decide)⟩

/-- Witness of C3: multi-bit flag values at the four layer positions of the
design document's order; the UDP value 8191 fills the field up to its top bit. -/
theorem decode_undoes_encode_witness :
    specOrderIds.InRange ∧
    UDP_OFFLOAD specOrderIds 8191 < 2 ^ 16 ∧
    toU16 (UDP_OFFLOAD specOrderIds 8191) >>> specOrderIds.UDP_ID = 8191 ∧
    toU16 (TCP_OFFLOAD specOrderIds 1) = 2 ^ specOrderIds.TCP_ID :=
  have h := decode_undoes_encode specOrderIds (by decide) 5 3 1 8191 65535
    (by decide) (by decide) (by decide) (by decide) (by decide)
  ⟨by decide, by decide, h.1.2.2.2.1, h.2.2.2.1.1⟩

/-- C4, as the code has it: the match-rules shift is keyed by the enumeration
`ofldsIdxsSur` of its own, whose only enumerator `MATCH_RULES` has position 0,
so `MATCH_RULES_OFFLOAD` returns its flag value unshifted; whatever the protocol
layers' identifiers are, the match-rules position is not after any of them. -/
theorem match_rules_offload_position (ids : LayerIds) (val : Nat) :
    MATCH_RULES = 0 ∧
    (∀ e : ofldsIdxsSur, e = ofldsIdxsSur.MATCH_RULES) ∧
    MATCH_RULES_OFFLOAD val = val <<< 0 ∧
    MATCH_RULES_OFFLOAD val = val ∧
    MATCH_RULES ≤ ids.IPV4_ID ∧ MATCH_RULES ≤ ids.IPV6_ID ∧
    MATCH_RULES ≤ ids.TCP_ID ∧ MATCH_RULES ≤ ids.UDP_ID := by
  refine ⟨rfl, ?_, rfl, ?_, ?_, ?_, ?_, ?_⟩
  · intro e
    cases e
    rfl
  · unfold MATCH_RULES_OFFLOAD MATCH_RULES ofldsIdxsSur.val
    exact Nat.shiftLeft_zero
  all_goals exact Nat.zero_le _

/-- Counterexample to C4 as stated: the match-rules position is 0 and not 4, the
match-rules flag 1 is encoded as 1 and not as `1 << 4`, and no value of `UDP_ID`
lies before the match-rules position; in the enumeration order of the design
document the match-rules position is the one of IPv4. -/
theorem match_rules_position_not_after_udp :
    MATCH_RULES ≠ 4 ∧
    MATCH_RULES_OFFLOAD 1 = 1 ∧
    MATCH_RULES_OFFLOAD 1 ≠ 1 <<< 4 ∧
    ¬ (∃ ids : LayerIds, ids.UDP_ID < MATCH_RULES) ∧
    ¬ (specOrderIds.UDP_ID < MATCH_RULES) ∧
    MATCH_RULES = specOrderIds.IPV4_ID ∧
    MATCH_RULES_OFFLOAD 1 &&& IPV4_OFFLOAD specOrderIds 1 ≠ 0 := by
  refine ⟨by decide, by decide, by decide, ?_, by decide, by decide, by decide⟩
  rintro ⟨ids, h⟩
  exact Nat.not_lt_zero _ h

/-! ## Theorems: queue claiming -/

/-- Results of `m` claims in a row from a counter that has not passed the queue
count: claim number `i` gets the counter value `queue_id + i` while that is
below the queue count, and the exhaustion error afterwards. -/
theorem claimQueueSeq_results (m : Nat) :
    ∀ cfg : DPDKIfaceConfig, cfg.queue_id ≤ cfg.nb_rx_queues → cfg.nb_rx_queues < 2 ^ 16 →
      (claimQueueSeq m cfg).1 = (List.range m).map (fun i =>
        if cfg.queue_id + i < cfg.nb_rx_queues then Except.ok (cfg.queue_id + i)
        else Except.error ClaimError.QueuesExhausted) := by
  induction m with
  | zero => intro cfg _ _; rfl
  | succ m ih =>
    intro cfg hle hN
    rw [List.range_succ_eq_map, List.map_cons, List.map_map]
    by_cases hlt : cfg.queue_id < cfg.nb_rx_queues
    · have hstep : claimQueue cfg
          = (Except.ok cfg.queue_id, { cfg with queue_id := cfg.queue_id + 1 }) := by
        unfold claimQueue toU16 UINT16_BITS
        rw [if_pos hlt, Nat.mod_eq_of_lt (by omega)]
      simp only [claimQueueSeq, hstep]
      rw [ih { cfg with queue_id := cfg.queue_id + 1 } (by simpa using hlt) hN]
      simp only [Nat.add_zero, if_pos hlt]
      congr 1
      apply List.map_congr_left
      intro i _
      simp only [Function.comp, Nat.succ_eq_add_one]
      rw [Nat.add_assoc, Nat.add_comm 1 i]
    · have hstep : claimQueue cfg = (Except.error ClaimError.QueuesExhausted, cfg) := by
        unfold claimQueue
        rw [if_neg hlt]
      simp only [claimQueueSeq, hstep]
      rw [ih cfg hle hN]
      simp only [Nat.add_zero, if_neg hlt]
      congr 1
      apply List.map_congr_left
      intro i _
      have h1 : ¬ cfg.queue_id + i < cfg.nb_rx_queues := by omega
      have h2 : ¬ cfg.queue_id + (i + 1) < cfg.nb_rx_queues := by omega
      simp only [Function.comp, Nat.succ_eq_add_one, if_neg h1, if_neg h2]

/-- Among the first `m` naturals, `min m N` are below `N`. -/
theorem length_filter_range_lt (m N : Nat) :
    ((List.range m).filter (fun i => decide (i < N))).length = min m N := by
  induction m with
  | zero => simp
  | succ k ih =>
    rw [List.range_succ, List.filter_append, List.length_append, ih]
    by_cases hk : k < N
    · simp [hk]; omega
    · simp [hk]; omega

/-- C7: on a configuration with `N = nb_rx_queues` queues whose `queue_id`
counter starts at 0, any number `m` of claims in a row returns, for the claim
number `i` (counting from 0), the queue id `i` when `i < N` and the exhaustion
error otherwise: exactly the first `N` claims succeed, with the pairwise
distinct ids 0 to `N - 1`, and every later claim fails. -/
theorem claimQueue_first_N_then_exhausted (cfg : DPDKIfaceConfig) (m : Nat)
    (h0 : cfg.queue_id = 0) (hN : cfg.nb_rx_queues < 2 ^ 16) :
    (claimQueueSeq m cfg).1 = (List.range m).map (fun i =>
      if i < cfg.nb_rx_queues then Except.ok i else Except.error ClaimError.QueuesExhausted) ∧
    ((claimQueueSeq m cfg).1.filter (fun r => r.toBool)).length = min m cfg.nb_rx_queues ∧
    (∀ i j a b : Nat, (claimQueueSeq m cfg).1[i]? = some (Except.ok a) →
      (claimQueueSeq m cfg).1[j]? = some (Except.ok b) → i ≠ j → a ≠ b) := by
  have hres : (claimQueueSeq m cfg).1 = (List.range m).map (fun i =>
      if i < cfg.nb_rx_queues then Except.ok i
      else Except.error ClaimError.QueuesExhausted) := by
    rw [claimQueueSeq_results m cfg (by omega) hN]
    apply List.map_congr_left
    intro i _
    simp only [h0, Nat.zero_add]
  have hget : ∀ i a : Nat, (claimQueueSeq m cfg).1[i]? = some (Except.ok a) → a = i := by
    intro i a h
    rw [hres, List.getElem?_map] at h
    by_cases hi : i < m
    · rw [List.getElem?_range hi] at h
      simp only [Option.map_some'] at h
      by_cases hq : i < cfg.nb_rx_queues
      · rw [if_pos hq] at h
        injection h with h
        injection h with h
        exact h.symm
      · rw [if_neg hq] at h
        injection h with h
        cases h
    · rw [List.getElem?_eq_none (by simpa using Nat.le_of_not_lt hi)] at h
      cases h
  refine ⟨hres, ?_, ?_⟩
  · rw [hres, List.filter_map, List.length_map]
    have hf : (List.range m).filter
        ((fun r : Except ClaimError Nat => r.toBool) ∘ fun i =>
          if i < cfg.nb_rx_queues then Except.ok i
          else Except.error ClaimError.QueuesExhausted)
        = (List.range m).filter (fun i => decide (i < cfg.nb_rx_queues)) := by
      apply List.filter_congr
      intro i _
      by_cases hq : i < cfg.nb_rx_queues
      · simp [hq, Except.toBool]
      · simp [hq, Except.toBool]
    rw [hf]
    exact length_filter_range_lt m cfg.nb_rx_queues
  · intro i j a b hi hj hij hab
    have ha := hget i a hi
    have hb := hget j b hj
    omega

/-- Witness of C7: five claims on a configuration with three queues. -/
theorem claimQueue_first_N_then_exhausted_witness :
    threeQueueConfig.queue_id = 0 ∧ threeQueueConfig.nb_rx_queues < 2 ^ 16 ∧
    (claimQueueSeq 5 threeQueueConfig).1
      = [Except.ok 0, Except.ok 1, Except.ok 2,
         Except.error ClaimError.QueuesExhausted, Except.error ClaimError.QueuesExhausted] :=
  ⟨rfl, by decide, (claimQueue_first_N_then_exhausted threeQueueConfig 5 rfl (by decide)).1⟩

/-! ## Theorems: diagnostic accessors -/

/-- The counting loop adds the number of decimal digits of `n` to the counter,
as long as the `uint8_t` counter does not wrap. -/
theorem CountDigits.loop_eq (n : Nat) :
    ∀ c : Nat, c + (Nat.digits 10 n).length < 256 →
      CountDigits.loop n c = c + (Nat.digits 10 n).length := by
  induction n using Nat.strong_induction_on with
  | _ n ih =>
    intro c hc
    rw [CountDigits.loop]
    by_cases hn : n = 0
    · subst hn
      simp
    · have hpos : 0 < n := Nat.pos_of_ne_zero hn
      have hd : Nat.digits 10 n = (n % 10) :: Nat.digits 10 (n / 10) :=
        Nat.digits_def' (by decide) hpos
      rw [hd, List.length_cons] at hc
      rw [dif_neg hn, hd, List.length_cons]
      have hc1 : toU8 (c + 1) = c + 1 := by
        unfold toU8
        exact Nat.mod_eq_of_lt (by omega)
      rw [hc1, ih (n / 10) (by omega) (c + 1) (by omega)]
      omega

/-- A 32-bit value has at most ten decimal digits. -/
theorem digits_length_le_ten (n : Nat) (hn : n < 2 ^ 32) : (Nat.digits 10 n).length ≤ 10 := by
  by_cases h0 : n = 0
  · subst h0
    simp
  · have h1 : 10 ^ (Nat.digits 10 n).length ≤ 10 * n :=
      Nat.base_pow_length_digits_le 10 n (by decide) h0
    have h2 : 10 ^ (Nat.digits 10 n).length < 10 ^ 11 := by
      have : 10 * n < 10 ^ 11 := by norm_num at hn ⊢; omega
      omega
    have h3 : (Nat.digits 10 n).length < 11 :=
      (Nat.pow_lt_pow_iff_right (by decide)).mp h2
    omega

/-- C9: for every 32-bit unsigned `n`, `CountDigits n` is the number of decimal
digits of `n`, counting one digit for 0: it is the length of the decimal digit
list (1 for the empty list of 0), so a non-zero `n` satisfies
`10 ^ (d - 1) ≤ n < 10 ^ d` for `d = CountDigits n`; the result lies between 1
and 10 and is below 256, the range of the `uint8_t` return type. -/
theorem CountDigits_decimal_digits (n : Nat) (hn : n < 2 ^ 32) :
    CountDigits 0 = 1 ∧
    CountDigits n = max 1 (Nat.digits 10 n).length ∧
    (n ≠ 0 → 10 ^ (CountDigits n - 1) ≤ n ∧ n < 10 ^ CountDigits n) ∧
    1 ≤ CountDigits n ∧ CountDigits n ≤ 10 ∧ CountDigits n < 2 ^ 8 := by
  have hlen := digits_length_le_ten n hn
  have hmain : CountDigits n = max 1 (Nat.digits 10 n).length := by
    unfold CountDigits
    by_cases h0 : n = 0
    · subst h0
      simp
    · have hpos : 0 < n := Nat.pos_of_ne_zero h0
      have hd : Nat.digits 10 n = (n % 10) :: Nat.digits 10 (n / 10) :=
        Nat.digits_def' (by decide) hpos
      have h1 : 1 ≤ (Nat.digits 10 n).length := by
        rw [hd, List.length_cons]
        omega
      rw [if_neg h0, CountDigits.loop_eq n 0 (by omega), Nat.zero_add]
      unfold toU8
      rw [Nat.mod_eq_of_lt (by omega)]
      omega
  refine ⟨by simp [CountDigits], hmain, ?_, ?_, ?_, ?_⟩
  · intro h0
    have hd : (Nat.digits 10 n).length = Nat.log 10 n + 1 := Nat.digits_len 10 n (by decide) h0
    have hc : CountDigits n = Nat.log 10 n + 1 := by
      rw [hmain, hd]
      omega
    rw [hc, Nat.add_sub_cancel]
    exact ⟨Nat.pow_log_le_self 10 h0, Nat.lt_pow_succ_log_self (by decide) n⟩
  · rw [hmain]
    omega
  · rw [hmain]
    omega
  · rw [hmain]
    have : (2 : Nat) ^ 8 = 256 := by norm_num
    omega

/-- Witness of C9 at the largest 32-bit value, which has ten digits. -/
theorem CountDigits_decimal_digits_witness :
    (4294967295 : Nat) < 2 ^ 32 ∧
    (10 ^ (CountDigits 4294967295 - 1) ≤ 4294967295 ∧ 4294967295 < 10 ^ CountDigits 4294967295) ∧
    CountDigits 4294967295 ≤ 10 :=
  have h := CountDigits_decimal_digits 4294967295 (by norm_num)
  ⟨by norm_num, h.2.2.1 (by decide), h.2.2.2.2.1⟩

/-- The running maximum over the first `k` indices bounds the start value and
every element read, and is the start value or one of the elements read. -/
theorem foldl_max_range (arr : List Nat) (k : Nat) :
    ∀ m0 : Nat,
      let r := (List.range k).foldl (fun m i => max (arr.getD i 0) m) m0
      m0 ≤ r ∧ (∀ i, i < k → arr.getD i 0 ≤ r) ∧ (r = m0 ∨ ∃ i, i < k ∧ r = arr.getD i 0) := by
  induction k with
  | zero =>
    intro m0
    simp
  | succ k ih =>
    intro m0
    simp only [List.range_succ, List.foldl_append, List.foldl_cons, List.foldl_nil]
    obtain ⟨h1, h2, h3⟩ := ih m0
    refine ⟨?_, ?_, ?_⟩
    · exact Nat.le_trans h1 (Nat.le_max_right _ _)
    · intro i hi
      by_cases hik : i = k
      · subst hik
        exact Nat.le_max_left _ _
      · exact Nat.le_trans (h2 i (by omega)) (Nat.le_max_right _ _)
    · rcases Nat.le_total (arr.getD k 0)
          ((List.range k).foldl (fun m i => max (arr.getD i 0) m) m0) with hle | hle
      · rw [Nat.max_eq_right hle]
        rcases h3 with h3 | ⟨i, hi, h3⟩
        · exact Or.inl h3
        · exact Or.inr ⟨i, by omega, h3⟩
      · rw [Nat.max_eq_left hle]
        exact Or.inr ⟨k, by omega, rfl⟩

/-- C10: for every array and every length `arr_len` within it (0 included),
`ArrayMaxValue` returns a value that is at least each of the first `arr_len`
elements and, when `arr_len > 0`, is one of those elements; for length 0 it
returns 0, and for 32-bit elements the result is a 32-bit value. -/
theorem ArrayMaxValue_is_maximum (arr : List Nat) (arr_len : Nat)
    (hlen : arr_len ≤ arr.length) :
    (∀ i v : Nat, i < arr_len → arr[i]? = some v → v ≤ ArrayMaxValue arr arr_len) ∧
    (0 < arr_len → ∃ i : Nat, i < arr_len ∧ arr[i]? = some (ArrayMaxValue arr arr_len)) ∧
    ArrayMaxValue arr 0 = 0 ∧
    ((∀ x ∈ arr, x < 2 ^ 32) → ArrayMaxValue arr arr_len < 2 ^ 32) := by
  obtain ⟨_, h2, h3⟩ := foldl_max_range arr arr_len 0
  have hget : ∀ i : Nat, i < arr_len → arr[i]? = some (arr.getD i 0) := by
    intro i hi
    have hi2 : i < arr.length := by omega
    rw [List.getD_eq_getElem?_getD, List.getElem?_eq_getElem hi2]
    rfl
  have hex : 0 < arr_len → ∃ i : Nat, i < arr_len ∧ arr[i]? = some (ArrayMaxValue arr arr_len) := by
    intro hpos
    rcases h3 with h3 | ⟨i, hi, h3⟩
    · refine ⟨0, hpos, ?_⟩
      have h0 := h2 0 hpos
      have heq : arr.getD 0 0 = ArrayMaxValue arr arr_len := by
        unfold ArrayMaxValue
        omega
      rw [← heq]
      exact hget 0 hpos
    · refine ⟨i, hi, ?_⟩
      have heq : ArrayMaxValue arr arr_len = arr.getD i 0 := h3
      rw [heq]
      exact hget i hi
  refine ⟨?_, hex, rfl, ?_⟩
  · intro i v hi hv
    rw [hget i hi] at hv
    injection hv with hv
    rw [← hv]
    exact h2 i hi
  · intro hall
    by_cases hpos : 0 < arr_len
    · obtain ⟨i, _, hi⟩ := hex hpos
      exact hall _ (List.getElem?_mem hi)
    · have h0 : arr_len = 0 := by omega
      subst h0
      exact Nat.two_pow_pos 32

/-- Witness of C10: the maximum of the first three of four elements. -/
theorem ArrayMaxValue_is_maximum_witness :
    (3 : Nat) ≤ [7, 42, 5, 99].length ∧
    (∃ i : Nat, i < 3 ∧ [7, 42, 5, 99][i]? = some (ArrayMaxValue [7, 42, 5, 99] 3)) ∧
    ArrayMaxValue [7, 42, 5, 99] 3 = 42 :=
  ⟨by decide, (ArrayMaxValue_is_maximum [7, 42, 5, 99] 3 (by decide)).2.1 (by decide),
    by decide⟩

end UtilDpdk
